import Mathlib

/- Verification of the modular-information algebra and the hat-sum
   belief-synchronization protocol of `src/src/strategies/hat_helpers.rs`.

   Modelling conventions:
   * the Rust `u32` fields are modelled as `Nat`;
   * a Rust `assert!` failure, and the abort of a division by zero, are
     modelled by returning `Option.none`; every operation that can abort
     therefore returns an `Option`;
   * `&mut self` methods are modelled as functions returning the new value
     of the receiver (alongside any return value);
   * Rust local variables (`let value = ...` etc.) are inlined.  -/

structure ModulusInformation where
  modulus : Nat
  value : Nat
  deriving Repr, DecidableEq

namespace ModulusInformation

/-- `ModulusInformation::new` (hat_helpers.rs:10-16): asserts `value < modulus`. -/
def new (modulus value : Nat) : Option ModulusInformation :=
  if value < modulus then some ⟨modulus, value⟩ else Option.none

/-- `ModulusInformation::none` (hat_helpers.rs:18-20): `Self::new(1, 0)`. -/
def none : ModulusInformation := ⟨1, 0⟩

/-- `ModulusInformation::info_remaining` (hat_helpers.rs:29-41), where the Rust
local `result = (max_modulus - self.value - 1) / self.modulus + 1` is inlined
and the two internal assertions are the `if` condition. -/
def info_remaining (self : ModulusInformation) (max_modulus : Nat) : Option Nat :=
  if self.value + self.modulus * ((max_modulus - self.value - 1) / self.modulus + 1 - 1)
        < max_modulus ∧
      max_modulus ≤ self.value +
        self.modulus * ((max_modulus - self.value - 1) / self.modulus + 1 + 1 - 1) then
    some ((max_modulus - self.value - 1) / self.modulus + 1)
  else Option.none

/-- `ModulusInformation::combine` (hat_helpers.rs:22-27).  The receiver is
mutated in Rust; here the new receiver is returned.  The first assertion
(`other.modulus <= self.info_remaining(max_modulus)`) is the guard after the
match, the final assertion (`self.value < self.modulus`) is the inner guard. -/
def combine (self other : ModulusInformation) (max_modulus : Nat) :
    Option ModulusInformation :=
  match self.info_remaining max_modulus with
  | Option.none => Option.none
  | some remaining =>
    if other.modulus ≤ remaining then
      if self.value + self.modulus * other.value
          < min max_modulus (self.modulus * other.modulus) then
        some ⟨min max_modulus (self.modulus * other.modulus),
              self.value + self.modulus * other.value⟩
      else Option.none
    else Option.none

/-- `ModulusInformation::split` (hat_helpers.rs:43-55).  Returns the extracted
low-order residue together with the new value of the receiver.  The middle
`if` is the source's round-trip assertion
`original_value == value + modulus * self.value`. -/
def split (self : ModulusInformation) (modulus : Nat) :
    Option (ModulusInformation × ModulusInformation) :=
  if modulus ≤ self.modulus then
    if self.value = self.value % modulus + modulus * (self.value / modulus) then
      match new modulus (self.value % modulus) with
      | some low =>
        some (low, ⟨(self.modulus - self.value % modulus - 1) / modulus + 1,
                    self.value / modulus⟩)
      | Option.none => Option.none
    else Option.none
  else Option.none

/-- `ModulusInformation::cast_up` (hat_helpers.rs:57-60). -/
def cast_up (self : ModulusInformation) (modulus : Nat) :
    Option ModulusInformation :=
  if self.modulus ≤ modulus then some ⟨modulus, self.value⟩ else Option.none

/-- `ModulusInformation::add` (hat_helpers.rs:68-71). -/
def add (self other : ModulusInformation) : Option ModulusInformation :=
  if self.modulus = other.modulus then
    some ⟨self.modulus, (self.value + other.value) % self.modulus⟩
  else Option.none

/-- `ModulusInformation::subtract` (hat_helpers.rs:73-76). -/
def subtract (self other : ModulusInformation) : Option ModulusInformation :=
  if self.modulus = other.modulus then
    some ⟨self.modulus, (self.modulus + self.value - other.value) % self.modulus⟩
  else Option.none

end ModulusInformation

/-! ### The question interface and the public-information protocol

The Rust side (hat_helpers.rs:79-271) is a pair of traits.  `Question` is
modelled as a record of its three primitive methods; the two derived trait
methods become functions below.  `PublicInformation` is modelled as a record
of its required primitive methods over an abstract strategy state `S`;
the derived (default) trait methods become functions over that record.

The callback-driven `ask_questions` (hat_helpers.rs:130-131) is modelled as a
deterministic question generator `ask_questions_next`: given the strategy
state, the player, the evolving hand info and the remaining budget, produce
the next question, or `Option.none` to stop.  The generic driver
`runQuestions` below replays the source's callback loop, threading the
mutable callback state (`answer_info` resp. `info`) explicitly; a `fuel`
argument bounds the iteration, and running out of fuel with a question still
pending is a failure of the model, not of the source. -/

structure Question (Hand Board HandInfo : Type) where
  info_amount : Nat
  answer : Hand → Board → Nat
  acknowledge_answer : Nat → HandInfo → Board → HandInfo

variable {S Player Hand Board HandInfo : Type}

/-- `Question::answer_info` (hat_helpers.rs:89-94). -/
def Question.answer_info (q : Question Hand Board HandInfo) (hand : Hand)
    (board : Board) : Option ModulusInformation :=
  ModulusInformation.new q.info_amount (q.answer hand board)

/-- `Question::acknowledge_answer_info` (hat_helpers.rs:96-104): asserts that
the supplied residue's modulus matches `info_amount`. -/
def Question.acknowledge_answer_info (q : Question Hand Board HandInfo)
    (answer : ModulusInformation) (hand_info : HandInfo) (board : Board) :
    Option HandInfo :=
  if q.info_amount = answer.modulus then
    some (q.acknowledge_answer answer.value hand_info board)
  else Option.none

/-- The slice of `OwnedGameView` the protocol reads: the viewing player,
the acting player (`view.board.player`), the ordered other players
(`view.get_other_players()`), the hands (`view.get_hand`) and the board. -/
structure OwnedGameView (Player Hand Board : Type) where
  player : Player
  board_player : Player
  other_players : List Player
  hands : Player → Hand
  board : Board

/-- The required primitives of the `PublicInformation` trait
(hat_helpers.rs:107-131) that the derived methods below consume. -/
structure PublicInformation (S Player Hand Board HandInfo : Type) where
  get_player_info : S → Player → HandInfo
  set_player_info : S → Player → HandInfo → S
  update_other_info : S → S
  ask_questions_next : S → Player → HandInfo → Nat → Option (Question Hand Board HandInfo)

/-- The callback loop inside `ask_questions`: fetch the next question, run the
caller's callback on it (which updates the hand info, the budget, and its own
state), repeat until the generator stops. -/
def runQuestions {σ : Type}
    (next : HandInfo → Nat → Option (Question Hand Board HandInfo))
    (cb : HandInfo → Nat → Question Hand Board HandInfo → σ →
      Option (HandInfo × Nat × σ)) :
    Nat → HandInfo → Nat → σ → Option (HandInfo × σ)
  | 0, hand_info, budget, acc =>
    match next hand_info budget with
    | Option.none => some (hand_info, acc)
    | some _ => Option.none
  | fuel + 1, hand_info, budget, acc =>
    match next hand_info budget with
    | Option.none => some (hand_info, acc)
    | some q =>
      match cb hand_info budget q acc with
      | Option.none => Option.none
      | some (hand_info2, budget2, acc2) =>
        runQuestions next cb fuel hand_info2 budget2 acc2

/-- The callback of `get_hat_info_for_player` (hat_helpers.rs:146-151):
answer the question from the player's actual hand, acknowledge that answer
into the hand info, fold it into the accumulated residue, and publish the
remaining capacity as the new budget. -/
def getCallback (view : OwnedGameView Player Hand Board) (total_info : Nat)
    (player : Player) :
    HandInfo → Nat → Question Hand Board HandInfo → ModulusInformation →
      Option (HandInfo × Nat × ModulusInformation) :=
  fun hand_info _ q answer_info =>
    match q.answer_info (view.hands player) view.board with
    | Option.none => Option.none
    | some new_answer_info =>
      match q.acknowledge_answer_info new_answer_info hand_info view.board with
      | Option.none => Option.none
      | some hand_info2 =>
        match answer_info.combine new_answer_info total_info with
        | Option.none => Option.none
        | some answer_info2 =>
          match answer_info2.info_remaining total_info with
          | Option.none => Option.none
          | some budget2 => some (hand_info2, budget2, answer_info2)

/-- The callback of `update_from_hat_info_for_player` (hat_helpers.rs:167-171):
split the incoming residue by the question's `info_amount`, acknowledge the
extracted piece, and publish the remainder's modulus as the new budget. -/
def updateCallback (board : Board) :
    HandInfo → Nat → Question Hand Board HandInfo → ModulusInformation →
      Option (HandInfo × Nat × ModulusInformation) :=
  fun hand_info _ q info =>
    match info.split q.info_amount with
    | Option.none => Option.none
    | some (answer_info, info2) =>
      match q.acknowledge_answer_info answer_info hand_info board with
      | Option.none => Option.none
      | some hand_info2 => some (hand_info2, info2.modulus, info2)

/-- `PublicInformation::get_hat_info_for_player` (hat_helpers.rs:140-156).
Returns the accumulated residue (cast up to `total_info`) and the new hand
info.  The leading assertion `player != view.player` is the first guard. -/
def PublicInformation.get_hat_info_for_player [DecidableEq Player]
    (pi : PublicInformation S Player Hand Board HandInfo) (s : S)
    (player : Player) (hand_info : HandInfo) (total_info : Nat)
    (view : OwnedGameView Player Hand Board) (fuel : Nat) :
    Option (ModulusInformation × HandInfo) :=
  if player = view.player then Option.none
  else
    match runQuestions (pi.ask_questions_next s player)
        (getCallback view total_info player) fuel hand_info total_info
        ModulusInformation.none with
    | Option.none => Option.none
    | some (hand_info2, answer_info) =>
      match answer_info.cast_up total_info with
      | Option.none => Option.none
      | some final => some (final, hand_info2)

/-- `PublicInformation::update_from_hat_info_for_player`
(hat_helpers.rs:158-175).  The trailing assertion `info.value == 0` is the
final guard. -/
def PublicInformation.update_from_hat_info_for_player
    (pi : PublicInformation S Player Hand Board HandInfo) (s : S)
    (player : Player) (hand_info : HandInfo) (board : Board)
    (info : ModulusInformation) (fuel : Nat) : Option HandInfo :=
  match runQuestions (pi.ask_questions_next s player) (updateCallback board)
      fuel hand_info info.modulus info with
  | Option.none => Option.none
  | some (hand_info2, info2) =>
    if info2.value = 0 then some hand_info2 else Option.none

/-- `PublicInformation::set_player_infos` (hat_helpers.rs:133-138). -/
def PublicInformation.set_player_infos
    (pi : PublicInformation S Player Hand Board HandInfo) (s : S)
    (infos : List (Player × HandInfo)) : S :=
  pi.update_other_info
    (infos.foldl (fun t ph => pi.set_player_info t ph.1 ph.2) s)

/-- The player loop shared by `get_hat_sum` and `update_from_hat_sum`
(hat_helpers.rs:184-188 and 207-213): for each listed player, read its stored
hand info from the *original* state and run `get_hat_info_for_player`,
collecting the residue and the pair `(player, new hand info)`. -/
def hatInfoList [DecidableEq Player]
    (pi : PublicInformation S Player Hand Board HandInfo) (s : S)
    (view : OwnedGameView Player Hand Board) (total_info fuel : Nat) :
    List Player → Option (List (ModulusInformation × (Player × HandInfo)))
  | [] => some []
  | player :: rest =>
    match pi.get_hat_info_for_player s player (pi.get_player_info s player)
        total_info view fuel with
    | Option.none => Option.none
    | some (info, hand_info2) =>
      match hatInfoList pi s view total_info fuel rest with
      | Option.none => Option.none
      | some pairs => some ((info, (player, hand_info2)) :: pairs)

/-- The summing fold of `get_hat_sum` (hat_helpers.rs:190-196). -/
def sumInfos : ModulusInformation → List ModulusInformation →
    Option ModulusInformation
  | acc, [] => some acc
  | acc, info :: rest =>
    match acc.add info with
    | Option.none => Option.none
    | some acc2 => sumInfos acc2 rest

/-- The subtracting loop of `update_from_hat_sum` (hat_helpers.rs:214-216). -/
def subtractInfos : ModulusInformation → List ModulusInformation →
    Option ModulusInformation
  | info, [] => some info
  | info, other :: rest =>
    match info.subtract other with
    | Option.none => Option.none
    | some info2 => subtractInfos info2 rest

/-- `PublicInformation::get_hat_sum` (hat_helpers.rs:180-197).  Returns the
hat sum together with the new strategy state. -/
def PublicInformation.get_hat_sum [DecidableEq Player]
    (pi : PublicInformation S Player Hand Board HandInfo) (s : S)
    (total_info : Nat) (view : OwnedGameView Player Hand Board)
    (fuel : Nat) : Option (ModulusInformation × S) :=
  if total_info = 1 then some (ModulusInformation.none, s)
  else
    match hatInfoList pi s view total_info fuel view.other_players with
    | Option.none => Option.none
    | some pairs =>
      match ModulusInformation.new total_info 0 with
      | Option.none => Option.none
      | some init =>
        match sumInfos init (pairs.map Prod.fst) with
        | Option.none => Option.none
        | some sum => some (sum, pi.set_player_infos s (pairs.map Prod.snd))

/-- `PublicInformation::update_from_hat_sum` (hat_helpers.rs:202-226). -/
def PublicInformation.update_from_hat_sum [DecidableEq Player]
    (pi : PublicInformation S Player Hand Board HandInfo) (s : S)
    (info : ModulusInformation) (view : OwnedGameView Player Hand Board)
    (fuel : Nat) : Option S :=
  if info.modulus = 1 then some s
  else
    match hatInfoList pi s view info.modulus fuel
        (view.other_players.filter (fun p => p ≠ view.board_player)) with
    | Option.none => Option.none
    | some pairs =>
      match subtractInfos info (pairs.map Prod.fst) with
      | Option.none => Option.none
      | some info2 =>
        if view.player = view.board_player then
          if info2.value = 0 then
            some (pi.set_player_infos s (pairs.map Prod.snd))
          else Option.none
        else
          match pi.update_from_hat_info_for_player s view.player
              (pi.get_player_info s view.player) view.board info2 fuel with
          | Option.none => Option.none
          | some my_hand2 =>
            some (pi.set_player_infos s
              (pairs.map Prod.snd ++ [(view.player, my_hand2)]))

/-- `PublicInformation::decide_action_not_known_to_be_possible`
(hat_helpers.rs:254-262): compute the hat sum on a clone (discarding the
clone's state); if it is zero, commit by recomputing it on the live state and
report `true`, otherwise report `false` without mutating. -/
def PublicInformation.decide_action_not_known_to_be_possible [DecidableEq Player]
    (pi : PublicInformation S Player Hand Board HandInfo) (s : S)
    (num_states : Nat) (view : OwnedGameView Player Hand Board)
    (fuel : Nat) : Option (Bool × S) :=
  match pi.get_hat_sum s num_states view fuel with
  | Option.none => Option.none
  | some (hat_sum, _) =>
    if hat_sum.value = 0 then
      match pi.get_hat_sum s num_states view fuel with
      | Option.none => Option.none
      | some (_, s2) => some (true, s2)
    else some (false, s)

/-! ### A specification-side restatement of `update_from_hat_sum`

Written from the words of claim C4: walk over every agent other than the
acting agent and the viewer, recompute each contribution via
`get_hat_info_for_player` and immediately subtract it from the residue;
then, if the viewer is the actor, require the leftover to be exactly zero,
otherwise apply the leftover to the viewer's own belief state. -/

def updateFromHatSumSpecGo [DecidableEq Player]
    (pi : PublicInformation S Player Hand Board HandInfo) (s : S)
    (view : OwnedGameView Player Hand Board) (fuel : Nat) :
    List Player → ModulusInformation →
      Option (ModulusInformation × List (Player × HandInfo))
  | [], info => some (info, [])
  | p :: rest, info =>
    match pi.get_hat_info_for_player s p (pi.get_player_info s p)
        info.modulus view fuel with
    | Option.none => Option.none
    | some (contribution, hand_info2) =>
      match info.subtract contribution with
      | Option.none => Option.none
      | some info2 =>
        match updateFromHatSumSpecGo pi s view fuel rest info2 with
        | Option.none => Option.none
        | some (leftover, hands) => some (leftover, (p, hand_info2) :: hands)

def update_from_hat_sum_spec [DecidableEq Player]
    (pi : PublicInformation S Player Hand Board HandInfo) (s : S)
    (info : ModulusInformation) (view : OwnedGameView Player Hand Board)
    (fuel : Nat) : Option S :=
  if info.modulus = 1 then some s
  else
    match updateFromHatSumSpecGo pi s view fuel
        (view.other_players.filter (fun p => p ≠ view.board_player)) info with
    | Option.none => Option.none
    | some (leftover, hands) =>
      if view.player = view.board_player then
        if leftover.value = 0 then some (pi.set_player_infos s hands)
        else Option.none
      else
        match pi.update_from_hat_info_for_player s view.player
            (pi.get_player_info s view.player) view.board leftover fuel with
        | Option.none => Option.none
        | some my_hand2 =>
          some (pi.set_player_infos s (hands ++ [(view.player, my_hand2)]))

/-! ### A concrete strategy instance for counterexamples and witnesses

Players are numbered; the viewer is player 0, the single other player is
player 1.  The belief state about a hand is a plain counter (`HandInfo = Nat`)
and the strategy state stores player 1's counter.  While the budget admits it,
the strategy asks a question whose answer is `0` exactly when the counter is
still `0`, and whose acknowledgment increments the counter. -/

def exampleQuestion (b : Nat) : Question Unit Unit Nat where
  info_amount := 2
  answer := fun _ _ => if b = 0 then 0 else 1
  acknowledge_answer := fun _ hand_info _ => hand_info + 1

def examplePublicInformation : PublicInformation Nat Nat Unit Unit Nat where
  get_player_info := fun s p => if p = 1 then s else 0
  set_player_info := fun s p hand_info => if p = 1 then hand_info else s
  update_other_info := fun s => s
  ask_questions_next := fun _ _ hand_info budget =>
    if 2 ≤ budget then some (exampleQuestion hand_info) else Option.none

def exampleView : OwnedGameView Nat Unit Unit where
  player := 0
  board_player := 0
  other_players := [1]
  hands := fun _ => ()
  board := ()

/-! ### Inversion lemmas for the residue algebra -/

lemma new_eq_some_iff {m v : Nat} {r : ModulusInformation} :
    ModulusInformation.new m v = some r ↔ v < m ∧ r = ⟨m, v⟩ := by
  unfold ModulusInformation.new
  split_ifs with h
  · simp only [Option.some.injEq]
    constructor
    · intro he; exact ⟨h, he.symm⟩
    · rintro ⟨_, rfl⟩; rfl
  · simp [h]

lemma info_remaining_eq_some_iff {a : ModulusInformation} {c r : Nat} :
    a.info_remaining c = some r ↔
      1 ≤ a.modulus ∧ a.value < c ∧ r = (c - a.value - 1) / a.modulus + 1 := by
  unfold ModulusInformation.info_remaining
  simp only [Nat.add_sub_cancel]
  split_ifs with hcond
  · obtain ⟨h1, h2⟩ := hcond
    simp only [Option.some.injEq]
    constructor
    · intro he
      have hm : 1 ≤ a.modulus := by
        by_contra h0
        have hm0 : a.modulus = 0 := by omega
        rw [hm0, Nat.zero_mul] at h1 h2
        omega
      exact ⟨hm, by omega, he.symm⟩
    · rintro ⟨hm, hvc, rfl⟩; rfl
  · constructor
    · intro he; exact absurd he (by simp)
    · rintro ⟨hm, hvc, rfl⟩
      exfalso
      apply hcond
      have hd := Nat.div_add_mod (c - a.value - 1) a.modulus
      have hl := Nat.mod_lt (c - a.value - 1) hm
      have e : a.modulus * ((c - a.value - 1) / a.modulus + 1) =
          a.modulus * ((c - a.value - 1) / a.modulus) + a.modulus := by
        rw [Nat.mul_add, Nat.mul_one]
      exact ⟨by omega, by omega⟩

lemma combine_eq_some_iff {a b : ModulusInformation} {c : Nat}
    {r : ModulusInformation} :
    ModulusInformation.combine a b c = some r ↔
      ∃ ir, a.info_remaining c = some ir ∧ b.modulus ≤ ir ∧
        a.value + a.modulus * b.value < min c (a.modulus * b.modulus) ∧
        r = ⟨min c (a.modulus * b.modulus), a.value + a.modulus * b.value⟩ := by
  unfold ModulusInformation.combine
  cases hir : a.info_remaining c with
  | none => simp
  | some remaining =>
    simp only []
    split_ifs with h1 h2
    · constructor
      · intro he; exact ⟨remaining, rfl, h1, h2, (Option.some.inj he).symm⟩
      · rintro ⟨ir, hh, hb, hlt, rfl⟩; rfl
    · constructor
      · intro he; exact absurd he (by simp)
      · rintro ⟨ir, hh, hb, hlt, rfl⟩
        obtain rfl : remaining = ir := Option.some.inj hh
        exact absurd hlt h2
    · constructor
      · intro he; exact absurd he (by simp)
      · rintro ⟨ir, hh, hb, hlt, rfl⟩
        obtain rfl : remaining = ir := Option.some.inj hh
        exact absurd hb h1

lemma combine_eq_none_of_gt {a : ModulusInformation} {c ir : Nat}
    (b : ModulusInformation)
    (hir : a.info_remaining c = some ir) (hm2 : ir < b.modulus) :
    ModulusInformation.combine a b c = Option.none := by
  cases hc : ModulusInformation.combine a b c with
  | none => rfl
  | some r =>
    obtain ⟨ir2, hir2, hb, _, _⟩ := combine_eq_some_iff.mp hc
    rw [hir] at hir2
    obtain rfl : ir = ir2 := Option.some.inj hir2
    omega

lemma split_eq_some_iff {a : ModulusInformation} {m : Nat}
    {low rem : ModulusInformation} :
    ModulusInformation.split a m = some (low, rem) ↔
      m ≤ a.modulus ∧ a.value % m < m ∧ low = ⟨m, a.value % m⟩ ∧
      rem = ⟨(a.modulus - a.value % m - 1) / m + 1, a.value / m⟩ := by
  unfold ModulusInformation.split
  have hrt : a.value = a.value % m + m * (a.value / m) := (Nat.mod_add_div _ _).symm
  split_ifs with h1
  · cases hnew : ModulusInformation.new m (a.value % m) with
    | none =>
      constructor
      · intro he; exact absurd he (by simp)
      · rintro ⟨hh1, hh2, hlow, hrem⟩
        unfold ModulusInformation.new at hnew
        rw [if_pos hh2] at hnew
        exact absurd hnew (by simp)
    | some l =>
      obtain ⟨hvm, rfl⟩ := new_eq_some_iff.mp hnew
      simp only [Option.some.injEq, Prod.mk.injEq]
      constructor
      · rintro ⟨hl, hr⟩; exact ⟨h1, hvm, hl.symm, hr.symm⟩
      · rintro ⟨hh1, hh2, hlow, hrem⟩; exact ⟨hlow.symm, hrem.symm⟩
  · constructor
    · intro he; exact absurd he (by simp)
    · rintro ⟨hh1, _⟩; exact absurd hh1 h1

lemma cast_up_eq_some_iff {a : ModulusInformation} {m : Nat}
    {r : ModulusInformation} :
    ModulusInformation.cast_up a m = some r ↔
      a.modulus ≤ m ∧ r = ⟨m, a.value⟩ := by
  unfold ModulusInformation.cast_up
  split_ifs with h
  · simp only [Option.some.injEq]
    constructor
    · intro he; exact ⟨h, he.symm⟩
    · rintro ⟨_, rfl⟩; rfl
  · constructor
    · intro he; exact absurd he (by simp)
    · rintro ⟨hh, _⟩; exact absurd hh h

lemma add_eq_some_iff {a b : ModulusInformation} {r : ModulusInformation} :
    ModulusInformation.add a b = some r ↔
      a.modulus = b.modulus ∧ r = ⟨a.modulus, (a.value + b.value) % a.modulus⟩ := by
  unfold ModulusInformation.add
  split_ifs with h
  · simp only [Option.some.injEq]
    constructor
    · intro he; exact ⟨h, he.symm⟩
    · rintro ⟨_, rfl⟩; rfl
  · constructor
    · intro he; exact absurd he (by simp)
    · rintro ⟨hh, _⟩; exact absurd hh h

lemma subtract_eq_some_iff {a b : ModulusInformation} {r : ModulusInformation} :
    ModulusInformation.subtract a b = some r ↔
      a.modulus = b.modulus ∧
      r = ⟨a.modulus, (a.modulus + a.value - b.value) % a.modulus⟩ := by
  unfold ModulusInformation.subtract
  split_ifs with h
  · simp only [Option.some.injEq]
    constructor
    · intro he; exact ⟨h, he.symm⟩
    · rintro ⟨_, rfl⟩; rfl
  · constructor
    · intro he; exact absurd he (by simp)
    · rintro ⟨hh, _⟩; exact absurd hh h

/-- Success of `combine` under its precondition, computing the exact result.
Shared by several claims below. -/
lemma combine_eq_of_le {a b : ModulusInformation} {c ir : Nat}
    (ha : a.value < a.modulus) (hb : b.value < b.modulus)
    (hir : a.info_remaining c = some ir) (hm2 : b.modulus ≤ ir) :
    ModulusInformation.combine a b c =
      some ⟨min c (a.modulus * b.modulus), a.value + a.modulus * b.value⟩ := by
  obtain ⟨hm1, hvc, hirv⟩ := info_remaining_eq_some_iff.mp hir
  have hd := Nat.div_add_mod (c - a.value - 1) a.modulus
  have hv2q : b.value ≤ (c - a.value - 1) / a.modulus := by omega
  have h1 : a.modulus * b.value ≤ a.modulus * ((c - a.value - 1) / a.modulus) :=
    Nat.mul_le_mul_left a.modulus hv2q
  have h2 : a.modulus * (b.value + 1) ≤ a.modulus * b.modulus :=
    Nat.mul_le_mul_left a.modulus hb
  have h3 : a.modulus * (b.value + 1) = a.modulus * b.value + a.modulus := by
    rw [Nat.mul_add, Nat.mul_one]
  rw [combine_eq_some_iff]
  refine ⟨ir, hir, hm2, ?_, rfl⟩
  rw [Nat.lt_min]
  exact ⟨by omega, by omega⟩

/-! ### Claim C1 -/

/-- Claim C1 fails as stated: with modulus `M = 5`, value `v = 3`, and split
point `s = 2` (which satisfies `s ≤ M` but does not divide `M`), the split
succeeds but recombining under ceiling `5` yields modulus `4`, not the
original modulus `5`. -/
theorem C1_counterexample :
    ModulusInformation.split ⟨5, 3⟩ 2 = some (⟨2, 1⟩, ⟨2, 1⟩) ∧
    ModulusInformation.combine ⟨2, 1⟩ ⟨2, 1⟩ 5 = some ⟨4, 3⟩ ∧
    (⟨4, 3⟩ : ModulusInformation) ≠ ⟨5, 3⟩ :=
  ⟨by decide, by decide, by decide⟩

/-- Claim C1 (amended): the round-trip law holds for split points dividing the
modulus.  For every residue `(M, v)` with `v < M` and every `s ∣ M`, splitting
at `s` and recombining the two parts under ceiling `M` reconstructs exactly
`(M, v)`. -/
theorem C1_split_combine_roundtrip (M v s : Nat) (hv : v < M) (hdvd : s ∣ M) :
    ∃ low rem,
      ModulusInformation.split ⟨M, v⟩ s = some (low, rem) ∧
      ModulusInformation.combine low rem M = some ⟨M, v⟩ := by
  obtain ⟨k, hk⟩ := hdvd
  have hM1 : 1 ≤ M := by omega
  have hs : 1 ≤ s := by
    rcases Nat.eq_zero_or_pos s with h0 | h0
    · subst h0; simp at hk; omega
    · exact h0
  have hk1 : 1 ≤ k := by
    rcases Nat.eq_zero_or_pos k with h0 | h0
    · subst h0; simp at hk; omega
    · exact h0
  have hsM : s ≤ M := Nat.le_of_dvd hM1 ⟨k, hk⟩
  have haS : v % s < s := Nat.mod_lt v hs
  have haM : v % s < M := by omega
  have hmulk : s * (k - 1 + 1) = s * (k - 1) + s := by rw [Nat.mul_add, Nat.mul_one]
  have hkk : k - 1 + 1 = k := by omega
  have hmulk' : s * k = s * (k - 1) + s := by rw [← hmulk, hkk]
  have hrepr : M - v % s - 1 = (s - v % s - 1) + s * (k - 1) := by omega
  have hdivq : (M - v % s - 1) / s = k - 1 := by
    rw [hrepr, Nat.add_mul_div_left _ _ hs, Nat.div_eq_of_lt (by omega)]
    omega
  have hrem : ModulusInformation.info_remaining ⟨s, v % s⟩ M =
      some ((M - v % s - 1) / s + 1) := by
    rw [info_remaining_eq_some_iff]
    exact ⟨hs, haM, rfl⟩
  have hvsk : v / s < (M - v % s - 1) / s + 1 := by
    have hle : v / s ≤ (s * k - 1) / s := Nat.div_le_div_right (by omega)
    have hrepr2 : s * k - 1 = (s - 1) + s * (k - 1) := by omega
    have h2 : (s * k - 1) / s = k - 1 := by
      rw [hrepr2, Nat.add_mul_div_left _ _ hs, Nat.div_eq_of_lt (by omega)]
      omega
    omega
  refine ⟨⟨s, v % s⟩, ⟨(M - v % s - 1) / s + 1, v / s⟩, ?_, ?_⟩
  · rw [split_eq_some_iff]
    exact ⟨hsM, haS, rfl, rfl⟩
  · have hc := combine_eq_of_le (a := ⟨s, v % s⟩)
      (b := ⟨(M - v % s - 1) / s + 1, v / s⟩) (c := M)
      haS hvsk hrem (Nat.le_refl _)
    rw [hc]
    have hmin : s * ((M - v % s - 1) / s + 1) = M := by
      rw [hdivq, hkk]; exact hk.symm
    have hval : v % s + s * (v / s) = v := Nat.mod_add_div v s
    simp only [Option.some.injEq, ModulusInformation.mk.injEq]
    refine ⟨?_, hval⟩
    rw [hmin]
    exact Nat.min_self M

/-! ### Claim C2 -/

/-- Claim C2: for valid residues `a = (m1, v1)` and `b = (m2, v2)` and any
ceiling `c` with `m2 ≤ a.info_remaining(c)`, `a.combine(b, c)` succeeds and
produces modulus `min c (m1*m2)` and value `v1 + m1*v2`. -/
theorem C2_combine_postcondition (m1 v1 m2 v2 c ir : Nat)
    (ha : v1 < m1) (hb : v2 < m2)
    (hir : ModulusInformation.info_remaining ⟨m1, v1⟩ c = some ir)
    (hm2 : m2 ≤ ir) :
    ModulusInformation.combine ⟨m1, v1⟩ ⟨m2, v2⟩ c =
      some ⟨min c (m1 * m2), v1 + m1 * v2⟩ :=
  combine_eq_of_le (a := ⟨m1, v1⟩) (b := ⟨m2, v2⟩) ha hb hir hm2

/-- Witness for Claim C2 at `a = (2,1)`, `b = (2,1)`, `c = 5`:
`info_remaining` is `2` and combining yields `(min 5 4, 1 + 2*1) = (4, 3)`. -/
theorem C2_combine_postcondition_witness :
    ModulusInformation.combine ⟨2, 1⟩ ⟨2, 1⟩ 5 = some ⟨min 5 (2 * 2), 1 + 2 * 1⟩ :=
  C2_combine_postcondition 2 1 2 1 5 2 (by decide) (by decide) (by decide) (by decide)

/-! ### Claim C3 -/

/-- Claim C3: for a valid residue `(m, v)` and any ceiling `c ≥ v + 1`,
`info_remaining` succeeds and equals `(c - v - 1) / m + 1`; combining any
valid residue of exactly that modulus succeeds, while combining any residue
of modulus one larger violates the precondition and aborts. -/
theorem C3_info_remaining_tight (m v c : Nat) (hv : v < m) (hc : v + 1 ≤ c) :
    ModulusInformation.info_remaining ⟨m, v⟩ c = some ((c - v - 1) / m + 1) ∧
    (∀ b : ModulusInformation, b.modulus = (c - v - 1) / m + 1 →
      b.value < b.modulus →
      ∃ r, ModulusInformation.combine ⟨m, v⟩ b c = some r) ∧
    (∀ b : ModulusInformation, b.modulus = (c - v - 1) / m + 1 + 1 →
      ModulusInformation.combine ⟨m, v⟩ b c = Option.none) := by
  have hir : ModulusInformation.info_remaining ⟨m, v⟩ c =
      some ((c - v - 1) / m + 1) := by
    rw [info_remaining_eq_some_iff]
    refine ⟨?_, ?_, rfl⟩
    · show 1 ≤ m
      omega
    · show v < c
      omega
  refine ⟨hir, ?_, ?_⟩
  · intro b hbm hbv
    exact ⟨_, combine_eq_of_le (a := ⟨m, v⟩) hv hbv hir (le_of_eq hbm)⟩
  · intro b hbm
    exact combine_eq_none_of_gt b hir (by omega)

/-- Witness for Claim C3 at `(m, v) = (2, 1)`, `c = 5`. -/
theorem C3_info_remaining_tight_witness :
    ModulusInformation.info_remaining ⟨2, 1⟩ 5 = some ((5 - 1 - 1) / 2 + 1) ∧
    (∀ b : ModulusInformation, b.modulus = (5 - 1 - 1) / 2 + 1 →
      b.value < b.modulus →
      ∃ r, ModulusInformation.combine ⟨2, 1⟩ b 5 = some r) ∧
    (∀ b : ModulusInformation, b.modulus = (5 - 1 - 1) / 2 + 1 + 1 →
      ModulusInformation.combine ⟨2, 1⟩ b 5 = Option.none) :=
  C3_info_remaining_tight 2 1 5 (by decide) (by decide)

/-! ### Claim C9 -/

/-- Claim C9: for residues of equal modulus `m` with values below `m`,
`add` then `subtract` of the same residue restores the original value and
leaves the modulus unchanged. -/
theorem C9_add_subtract_inverse (m va vb : Nat) (ha : va < m) (hb : vb < m) :
    (ModulusInformation.add ⟨m, va⟩ ⟨m, vb⟩).bind
      (fun r => ModulusInformation.subtract r ⟨m, vb⟩) = some ⟨m, va⟩ := by
  have key : (m + (va + vb) % m - vb) % m = va := by
    rcases Nat.lt_or_ge (va + vb) m with h | h
    · rw [Nat.mod_eq_of_lt h]
      have e : m + (va + vb) - vb = m + va := by omega
      rw [e, Nat.add_comm, Nat.add_mod_right, Nat.mod_eq_of_lt ha]
    · have h2 : (va + vb) % m = va + vb - m := by
        rw [Nat.mod_eq_sub_mod h, Nat.mod_eq_of_lt (by omega)]
      rw [h2]
      have e : m + (va + vb - m) - vb = va := by omega
      rw [e, Nat.mod_eq_of_lt ha]
  have hadd : ModulusInformation.add ⟨m, va⟩ ⟨m, vb⟩ =
      some ⟨m, (va + vb) % m⟩ := by
    rw [add_eq_some_iff]; exact ⟨rfl, rfl⟩
  rw [hadd]
  show ModulusInformation.subtract ⟨m, (va + vb) % m⟩ ⟨m, vb⟩ = some ⟨m, va⟩
  rw [subtract_eq_some_iff]
  refine ⟨rfl, ?_⟩
  show (⟨m, va⟩ : ModulusInformation) = ⟨m, (m + (va + vb) % m - vb) % m⟩
  rw [key]

/-- Witness for Claim C9 at `m = 3`, `va = 1`, `vb = 2`. -/
theorem C9_add_subtract_inverse_witness :
    (ModulusInformation.add ⟨3, 1⟩ ⟨3, 2⟩).bind
      (fun r => ModulusInformation.subtract r ⟨3, 2⟩) = some ⟨3, 1⟩ :=
  C9_add_subtract_inverse 3 1 2 (by decide) (by decide)

/-! ### Claim C10 -/

/-- Claim C10: for a valid residue `(m, v)` and any target modulus `t ≥ m`,
`cast_up` succeeds, leaves the value unchanged, and sets the modulus to the
(never smaller) target. -/
theorem C10_cast_up_frame (m v t : Nat) (hv : v < m) (ht : m ≤ t) :
    ModulusInformation.cast_up ⟨m, v⟩ t = some ⟨t, v⟩ := by
  rw [cast_up_eq_some_iff]
  exact ⟨ht, rfl⟩

/-- Witness for Claim C10 at `(m, v) = (3, 2)`, target `7`. -/
theorem C10_cast_up_frame_witness :
    ModulusInformation.cast_up ⟨3, 2⟩ 7 = some ⟨7, 2⟩ :=
  C10_cast_up_frame 3 2 7 (by decide) (by decide)

/-! ### Claim C7 -/

/-- Claim C7: every residue produced by `new`, `none`, `combine`, `split`,
`cast_up`, `add`, and `subtract` (with the receiver valid where the operation
reads it) satisfies `value < modulus` and `modulus ≥ 1`, for both the
returned residue and the new state of the mutated receiver. -/
theorem C7_range_invariant :
    (∀ m v r, ModulusInformation.new m v = some r →
      r.value < r.modulus ∧ 1 ≤ r.modulus) ∧
    (ModulusInformation.none.value < ModulusInformation.none.modulus ∧
      1 ≤ ModulusInformation.none.modulus) ∧
    (∀ a b c r, ModulusInformation.combine a b c = some r →
      r.value < r.modulus ∧ 1 ≤ r.modulus) ∧
    (∀ a m low rem, a.value < a.modulus →
      ModulusInformation.split a m = some (low, rem) →
      (low.value < low.modulus ∧ 1 ≤ low.modulus) ∧
      (rem.value < rem.modulus ∧ 1 ≤ rem.modulus)) ∧
    (∀ a m r, a.value < a.modulus → ModulusInformation.cast_up a m = some r →
      r.value < r.modulus ∧ 1 ≤ r.modulus) ∧
    (∀ a b r, a.value < a.modulus → ModulusInformation.add a b = some r →
      r.value < r.modulus ∧ 1 ≤ r.modulus) ∧
    (∀ a b r, a.value < a.modulus → ModulusInformation.subtract a b = some r →
      r.value < r.modulus ∧ 1 ≤ r.modulus) := by
  refine ⟨?_, by decide, ?_, ?_, ?_, ?_, ?_⟩
  · intro m v r h
    obtain ⟨hvm, rfl⟩ := new_eq_some_iff.mp h
    exact ⟨hvm, by show 1 ≤ m; omega⟩
  · intro a b c r h
    obtain ⟨ir, hir, hb, hlt, rfl⟩ := combine_eq_some_iff.mp h
    refine ⟨hlt, ?_⟩
    show 1 ≤ min c (a.modulus * b.modulus)
    omega
  · intro a m low rem hval h
    obtain ⟨h1, h2, rfl, rfl⟩ := split_eq_some_iff.mp h
    have hm : 1 ≤ m := by omega
    have hd := Nat.div_add_mod a.value m
    have hstep : m * (a.value / m) ≤ a.modulus - a.value % m - 1 := by omega
    have hle : a.value / m ≤ (a.modulus - a.value % m - 1) / m := by
      have h3 := Nat.div_le_div_right (c := m) hstep
      rwa [Nat.mul_div_cancel_left _ hm] at h3
    refine ⟨⟨h2, hm⟩, ?_, ?_⟩
    · show a.value / m < (a.modulus - a.value % m - 1) / m + 1
      exact Nat.lt_succ_of_le hle
    · show 1 ≤ (a.modulus - a.value % m - 1) / m + 1
      exact Nat.le_add_left 1 _
  · intro a m r hval h
    obtain ⟨h1, rfl⟩ := cast_up_eq_some_iff.mp h
    exact ⟨by show a.value < m; omega, by show 1 ≤ m; omega⟩
  · intro a b r hval h
    obtain ⟨h1, rfl⟩ := add_eq_some_iff.mp h
    exact ⟨Nat.mod_lt _ (by omega), by show 1 ≤ a.modulus; omega⟩
  · intro a b r hval h
    obtain ⟨h1, rfl⟩ := subtract_eq_some_iff.mp h
    exact ⟨Nat.mod_lt _ (by omega), by show 1 ≤ a.modulus; omega⟩

/-- Witness for Claim C7: instantiating the `combine` conjunct at
`combine (2,1) (2,1) 5 = some (4,3)`. -/
theorem C7_range_invariant_witness :
    (⟨4, 3⟩ : ModulusInformation).value < (⟨4, 3⟩ : ModulusInformation).modulus ∧
    1 ≤ (⟨4, 3⟩ : ModulusInformation).modulus :=
  C7_range_invariant.2.2.1 ⟨2, 1⟩ ⟨2, 1⟩ 5 ⟨4, 3⟩ (by decide)

/-! ### Claim C6 -/

/-- Claim C6: `get_hat_sum` with ceiling `1` returns the identity residue
`(1, 0)` and leaves the strategy state (all per-agent belief states)
completely unchanged, for every strategy, state, view and fuel. -/
theorem C6_get_hat_sum_ceiling_one {S Player Hand Board HandInfo : Type}
    [DecidableEq Player] (pi : PublicInformation S Player Hand Board HandInfo)
    (s : S) (view : OwnedGameView Player Hand Board) (fuel : Nat) :
    pi.get_hat_sum s 1 view fuel = some (ModulusInformation.none, s) := by
  unfold PublicInformation.get_hat_sum
  rw [if_pos rfl]

/-! ### Claim C8 -/

/-- Claim C8 fails as stated: in the concrete strategy instance above, the
first call of `decide_action_not_known_to_be_possible` commits (returns
`true`) and thereby mutates the state from `0` to `1`; the immediately
following call on the resulting state returns `false`.  The two successive
calls therefore disagree in their boolean outcome. -/
theorem C8_counterexample :
    examplePublicInformation.decide_action_not_known_to_be_possible
      0 2 exampleView 2 = some (true, 1) ∧
    examplePublicInformation.decide_action_not_known_to_be_possible
      1 2 exampleView 2 = some (false, 1) ∧
    (true : Bool) ≠ (false : Bool) :=
  ⟨by decide, by decide, by decide⟩

/-- Claim C8 (amended): the decision is stable when it does not commit.
If a call of `decide_action_not_known_to_be_possible` returns `false`, the
strategy state is unchanged, and an immediately repeated call returns `false`
again.  (A committing call mutates the state, and the repeated call may then
differ, as the counterexample shows.) -/
theorem C8_decide_action_idempotent_when_silent
    {S Player Hand Board HandInfo : Type} [DecidableEq Player]
    (pi : PublicInformation S Player Hand Board HandInfo) (s s2 : S)
    (num_states fuel : Nat) (view : OwnedGameView Player Hand Board)
    (h : pi.decide_action_not_known_to_be_possible s num_states view fuel =
      some (false, s2)) :
    s2 = s ∧
    pi.decide_action_not_known_to_be_possible s2 num_states view fuel =
      some (false, s2) := by
  unfold PublicInformation.decide_action_not_known_to_be_possible at h
  cases hg : pi.get_hat_sum s num_states view fuel with
  | none =>
    rw [hg] at h
    exact absurd h (by simp)
  | some pr =>
    obtain ⟨hat_sum, t⟩ := pr
    rw [hg] at h
    simp only [] at h
    split_ifs at h with hz
    · simp at h
    · simp only [Option.some.injEq, Prod.mk.injEq] at h
      obtain ⟨-, h2⟩ := h
      subst h2
      refine ⟨rfl, ?_⟩
      unfold PublicInformation.decide_action_not_known_to_be_possible
      rw [hg]
      simp only []
      rw [if_neg hz]

/-- Witness for the amended Claim C8: a non-committing call in the concrete
instance, repeated. -/
theorem C8_decide_action_idempotent_when_silent_witness :
    (1 : Nat) = 1 ∧
    examplePublicInformation.decide_action_not_known_to_be_possible
      1 2 exampleView 2 = some (false, 1) :=
  C8_decide_action_idempotent_when_silent examplePublicInformation 1 1 2 2
    exampleView (by decide)

/-! ### Claim C4 -/

/-- The collect-then-subtract loop of the source equals the spec-side
recompute-and-subtract-each traversal. -/
lemma updateFromHatSum_go_eq {S Player Hand Board HandInfo : Type}
    [DecidableEq Player] (pi : PublicInformation S Player Hand Board HandInfo)
    (s : S) (view : OwnedGameView Player Hand Board) (fuel : Nat)
    (players : List Player) :
    ∀ info : ModulusInformation,
      (match hatInfoList pi s view info.modulus fuel players with
       | Option.none => Option.none
       | some pairs =>
         match subtractInfos info (pairs.map Prod.fst) with
         | Option.none => Option.none
         | some info2 => some (info2, pairs.map Prod.snd)) =
      updateFromHatSumSpecGo pi s view fuel players info := by
  induction players with
  | nil => intro info; rfl
  | cons p rest ih =>
    intro info
    simp only [hatInfoList, updateFromHatSumSpecGo]
    cases hgh : pi.get_hat_info_for_player s p (pi.get_player_info s p)
        info.modulus view fuel with
    | none => rfl
    | some pr =>
      obtain ⟨contribution, hand_info2⟩ := pr
      simp only []
      cases hsub : info.subtract contribution with
      | none =>
        -- the subtraction fails; the source side fails on the same
        -- subtraction after collecting the rest, so both sides are `none`
        cases hrest : hatInfoList pi s view info.modulus fuel rest with
        | none => rfl
        | some pairs =>
          simp only [List.map_cons, subtractInfos, hsub]
      | some info2 =>
        have hmod : info2.modulus = info.modulus := by
          obtain ⟨-, rfl⟩ := subtract_eq_some_iff.mp hsub
          rfl
        have ih2 := ih info2
        rw [hmod] at ih2
        simp only []
        rw [← ih2]
        cases hrest : hatInfoList pi s view info.modulus fuel rest with
        | none => rfl
        | some pairs =>
          simp only [List.map_cons, subtractInfos, hsub]
          cases hs3 : subtractInfos info2 (pairs.map Prod.fst) with
          | none => rfl
          | some info3 => rfl

/-- Claim C4: `update_from_hat_sum` implements exactly the described
inversion: it equals the specification-side restatement (recompute the
contribution of every agent other than the actor and the viewer, subtract
each from the residue, then either require a zero leftover when the viewer
is the actor or apply the leftover to the viewer's belief state), and a
residue of modulus `1` returns with no belief-state mutation. -/
theorem C4_update_from_hat_sum_inversion {S Player Hand Board HandInfo : Type}
    [DecidableEq Player] (pi : PublicInformation S Player Hand Board HandInfo)
    (s : S) (info : ModulusInformation)
    (view : OwnedGameView Player Hand Board) (fuel : Nat) :
    pi.update_from_hat_sum s info view fuel =
      update_from_hat_sum_spec pi s info view fuel ∧
    (∀ v : Nat, pi.update_from_hat_sum s ⟨1, v⟩ view fuel = some s) := by
  constructor
  · unfold PublicInformation.update_from_hat_sum update_from_hat_sum_spec
    by_cases h1 : info.modulus = 1
    · rw [if_pos h1, if_pos h1]
    · rw [if_neg h1, if_neg h1]
      rw [← updateFromHatSum_go_eq pi s view fuel
        (view.other_players.filter (fun p => p ≠ view.board_player)) info]
      cases hh : hatInfoList pi s view info.modulus fuel
          (view.other_players.filter (fun p => p ≠ view.board_player)) with
      | none => rfl
      | some pairs =>
        simp only []
        cases hs2 : subtractInfos info (pairs.map Prod.fst) with
        | none => rfl
        | some info2 => rfl
  · intro v
    unfold PublicInformation.update_from_hat_sum
    rw [if_pos rfl]

/-- Witness for the amended Claim C1 at `M = 6`, `v = 3`, `s = 2`. -/
theorem C1_split_combine_roundtrip_witness :
    (3 < 6) ∧ (2 ∣ 6) ∧
    ∃ low rem, ModulusInformation.split ⟨6, 3⟩ 2 = some (low, rem) ∧
      ModulusInformation.combine low rem 6 = some ⟨6, 3⟩ :=
  ⟨by decide, by decide, C1_split_combine_roundtrip 6 3 2 (by decide) (by decide)⟩

/-! ### Claim C5: the update run inverts the get run -/

lemma getCallback_eq_some_iff {Player Hand Board HandInfo : Type}
    {view : OwnedGameView Player Hand Board} {t : Nat} {player : Player}
    {hi : HandInfo} {b : Nat} {q : Question Hand Board HandInfo}
    {acc : ModulusInformation} {res : HandInfo × Nat × ModulusInformation} :
    getCallback view t player hi b q acc = some res ↔
      q.answer (view.hands player) view.board < q.info_amount ∧
      ∃ acc2 b2,
        acc.combine ⟨q.info_amount, q.answer (view.hands player) view.board⟩ t =
          some acc2 ∧
        acc2.info_remaining t = some b2 ∧
        res = (q.acknowledge_answer (q.answer (view.hands player) view.board)
          hi view.board, b2, acc2) := by
  unfold getCallback Question.answer_info
  cases hnew : ModulusInformation.new q.info_amount
      (q.answer (view.hands player) view.board) with
  | none =>
    constructor
    · intro he; exact absurd he (by simp)
    · rintro ⟨ha, -⟩
      rw [new_eq_some_iff.mpr ⟨ha, rfl⟩] at hnew
      exact absurd hnew (by simp)
  | some nai =>
    obtain ⟨ha, rfl⟩ := new_eq_some_iff.mp hnew
    simp only []
    unfold Question.acknowledge_answer_info
    rw [if_pos rfl]
    simp only []
    cases hcomb : acc.combine
        ⟨q.info_amount, q.answer (view.hands player) view.board⟩ t with
    | none =>
      constructor
      · intro he; exact absurd he (by simp)
      · rintro ⟨-, acc2, b2, hc, -, -⟩
        exact absurd hc (by simp)
    | some acc2 =>
      simp only []
      cases hirem : acc2.info_remaining t with
      | none =>
        constructor
        · intro he; exact absurd he (by simp)
        · rintro ⟨-, acc2', b2', hc, hr, -⟩
          obtain rfl : acc2 = acc2' := Option.some.inj hc
          rw [hirem] at hr
          exact absurd hr (by simp)
      | some b2 =>
        constructor
        · intro he
          exact ⟨ha, acc2, b2, rfl, hirem, (Option.some.inj he).symm⟩
        · rintro ⟨-, acc2', b2', hc, hr, rfl⟩
          obtain rfl : acc2 = acc2' := Option.some.inj hc
          rw [hirem] at hr
          obtain rfl : b2 = b2' := Option.some.inj hr
          rfl

lemma updateCallback_eq_some_iff {Hand Board HandInfo : Type} {board : Board}
    {hi : HandInfo} {b : Nat} {q : Question Hand Board HandInfo}
    {info : ModulusInformation} {res : HandInfo × Nat × ModulusInformation} :
    updateCallback board hi b q info = some res ↔
      ∃ low info2, info.split q.info_amount = some (low, info2) ∧
        res = (q.acknowledge_answer low.value hi board, info2.modulus, info2) := by
  unfold updateCallback
  cases hsplit : info.split q.info_amount with
  | none =>
    constructor
    · intro he; exact absurd he (by simp)
    · rintro ⟨low, info2, hsp, -⟩
      exact absurd hsp (by simp)
  | some pr =>
    obtain ⟨low, info2⟩ := pr
    simp only []
    obtain ⟨hle, hltm, hlow, hrem⟩ := split_eq_some_iff.mp hsplit
    unfold Question.acknowledge_answer_info
    rw [if_pos (by rw [hlow])]
    simp only []
    constructor
    · intro he
      exact ⟨low, info2, rfl, (Option.some.inj he).symm⟩
    · rintro ⟨low', info2', hsp, rfl⟩
      simp only [Option.some.injEq, Prod.mk.injEq] at hsp
      obtain ⟨rfl, rfl⟩ := hsp
      rfl

lemma runGet_valid {Player Hand Board HandInfo : Type}
    (next : HandInfo → Nat → Option (Question Hand Board HandInfo))
    (view : OwnedGameView Player Hand Board) (t : Nat) (player : Player)
    (fuel : Nat) :
    ∀ (hi : HandInfo) (b : Nat) (acc : ModulusInformation)
      (hf : HandInfo) (af : ModulusInformation),
      acc.value < acc.modulus →
      runQuestions next (getCallback view t player) fuel hi b acc =
        some (hf, af) →
      af.value < af.modulus := by
  induction fuel with
  | zero =>
    intro hi b acc hf af hv h
    simp only [runQuestions] at h
    cases hnext : next hi b with
    | none =>
      rw [hnext] at h
      simp only [Option.some.injEq, Prod.mk.injEq] at h
      obtain ⟨-, rfl⟩ := h
      exact hv
    | some q =>
      rw [hnext] at h
      exact absurd h (by simp)
  | succ fuel ih =>
    intro hi b acc hf af hv h
    simp only [runQuestions] at h
    cases hnext : next hi b with
    | none =>
      rw [hnext] at h
      simp only [Option.some.injEq, Prod.mk.injEq] at h
      obtain ⟨-, rfl⟩ := h
      exact hv
    | some q =>
      rw [hnext] at h
      simp only [] at h
      cases hcb : getCallback view t player hi b q acc with
      | none => rw [hcb] at h; exact absurd h (by simp)
      | some trip =>
        rw [hcb] at h
        obtain ⟨ha, acc2, b2, hcomb, hirem, rfl⟩ := getCallback_eq_some_iff.mp hcb
        simp only [] at h
        obtain ⟨ir, -, -, hlt, rfl⟩ := combine_eq_some_iff.mp hcomb
        exact ih _ _ _ _ _ hlt h

lemma runGet_capped {Player Hand Board HandInfo : Type}
    (next : HandInfo → Nat → Option (Question Hand Board HandInfo))
    (view : OwnedGameView Player Hand Board) (t : Nat) (player : Player)
    (fuel : Nat) :
    ∀ (hi : HandInfo) (b : Nat) (acc : ModulusInformation)
      (hf : HandInfo) (af : ModulusInformation),
      acc.modulus = t → acc.value < t →
      runQuestions next (getCallback view t player) fuel hi b acc =
        some (hf, af) →
      af = acc := by
  induction fuel with
  | zero =>
    intro hi b acc hf af hm hv h
    simp only [runQuestions] at h
    cases hnext : next hi b with
    | none =>
      rw [hnext] at h
      simp only [Option.some.injEq, Prod.mk.injEq] at h
      obtain ⟨-, rfl⟩ := h
      rfl
    | some q =>
      rw [hnext] at h
      exact absurd h (by simp)
  | succ fuel ih =>
    intro hi b acc hf af hm hv h
    obtain ⟨am, av⟩ := acc
    have hm' : am = t := hm
    have hv' : av < t := hv
    simp only [runQuestions] at h
    cases hnext : next hi b with
    | none =>
      rw [hnext] at h
      simp only [Option.some.injEq, Prod.mk.injEq] at h
      obtain ⟨-, rfl⟩ := h
      rfl
    | some q =>
      rw [hnext] at h
      simp only [] at h
      cases hcb : getCallback view t player hi b q ⟨am, av⟩ with
      | none => rw [hcb] at h; exact absurd h (by simp)
      | some trip =>
        rw [hcb] at h
        obtain ⟨ha, acc2, b2, hcomb, hirem, rfl⟩ := getCallback_eq_some_iff.mp hcb
        simp only [] at h
        obtain ⟨ir, hir, hmle, hlt, rfl⟩ := combine_eq_some_iff.mp hcomb
        obtain ⟨h1m, hvt, hirv⟩ := info_remaining_eq_some_iff.mp hir
        have h1m' : 1 ≤ am := h1m
        have ht1 : 1 ≤ t := by omega
        have hirv' : ir = (t - av - 1) / am + 1 := hirv
        have hdiv0 : (t - av - 1) / am = 0 := Nat.div_eq_of_lt (by omega)
        have hir1 : ir = 1 := by omega
        have hmle' : q.info_amount ≤ ir := hmle
        have hm1 : q.info_amount = 1 := by omega
        have ha0 : q.answer (view.hands player) view.board = 0 := by
          have := ha
          omega
        have hacc2 : (⟨min t (am * q.info_amount),
            av + am * q.answer (view.hands player) view.board⟩ :
              ModulusInformation) = ⟨am, av⟩ := by
          rw [hm1, ha0, Nat.mul_one, Nat.mul_zero, Nat.add_zero, hm',
            Nat.min_self]
        rw [hacc2] at h
        exact ih _ _ _ _ _ hm hv' h

lemma runGet_multiple {Player Hand Board HandInfo : Type}
    (next : HandInfo → Nat → Option (Question Hand Board HandInfo))
    (view : OwnedGameView Player Hand Board) (t : Nat) (player : Player)
    (fuel : Nat) :
    ∀ (hi : HandInfo) (b : Nat) (acc : ModulusInformation)
      (hf : HandInfo) (af : ModulusInformation),
      acc.value < acc.modulus → acc.modulus ≤ t →
      runQuestions next (getCallback view t player) fuel hi b acc =
        some (hf, af) →
      ∃ j, af.value = acc.value + acc.modulus * j := by
  induction fuel with
  | zero =>
    intro hi b acc hf af hv hcap h
    simp only [runQuestions] at h
    cases hnext : next hi b with
    | none =>
      rw [hnext] at h
      simp only [Option.some.injEq, Prod.mk.injEq] at h
      obtain ⟨-, rfl⟩ := h
      exact ⟨0, by omega⟩
    | some q =>
      rw [hnext] at h
      exact absurd h (by simp)
  | succ fuel ih =>
    intro hi b acc hf af hv hcap h
    obtain ⟨am, av⟩ := acc
    have hv' : av < am := hv
    have hcap' : am ≤ t := hcap
    simp only [runQuestions] at h
    cases hnext : next hi b with
    | none =>
      rw [hnext] at h
      simp only [Option.some.injEq, Prod.mk.injEq] at h
      obtain ⟨-, rfl⟩ := h
      exact ⟨0, by omega⟩
    | some q =>
      rw [hnext] at h
      simp only [] at h
      cases hcb : getCallback view t player hi b q ⟨am, av⟩ with
      | none => rw [hcb] at h; exact absurd h (by simp)
      | some trip =>
        rw [hcb] at h
        obtain ⟨ha, acc2, b2, hcomb, hirem, rfl⟩ := getCallback_eq_some_iff.mp hcb
        simp only [] at h
        obtain ⟨ir, hir, hmle, hlt, rfl⟩ := combine_eq_some_iff.mp hcomb
        by_cases hcapm : am * q.info_amount ≤ t
        · have hmin : min t (am * q.info_amount) = am * q.info_amount :=
            min_eq_right hcapm
          rw [hmin] at h hlt
          obtain ⟨j, hj⟩ := ih _ _ _ _ _ hlt hcapm h
          have hj2 : af.value =
              (av + am * q.answer (view.hands player) view.board) +
                am * q.info_amount * j := hj
          refine ⟨q.answer (view.hands player) view.board + q.info_amount * j, ?_⟩
          show af.value = av +
            am * (q.answer (view.hands player) view.board + q.info_amount * j)
          have e1 : am * (q.answer (view.hands player) view.board +
              q.info_amount * j) =
              am * q.answer (view.hands player) view.board +
                am * (q.info_amount * j) := Nat.mul_add am _ _
          have e2 : am * q.info_amount * j = am * (q.info_amount * j) :=
            Nat.mul_assoc am _ _
          omega
        · push_neg at hcapm
          have hmin : min t (am * q.info_amount) = t :=
            min_eq_left (Nat.le_of_lt hcapm)
          rw [hmin] at h hlt
          have haf := runGet_capped next view t player fuel _ _ _ _ _ rfl hlt h
          refine ⟨q.answer (view.hands player) view.board, ?_⟩
          rw [haf]

lemma runUpdate_simulates {Player Hand Board HandInfo : Type}
    (next : HandInfo → Nat → Option (Question Hand Board HandInfo))
    (view : OwnedGameView Player Hand Board) (t : Nat) (player : Player)
    (fuel : Nat) :
    ∀ (hi : HandInfo) (b : Nat) (acc info : ModulusInformation)
      (hf : HandInfo) (af : ModulusInformation),
      acc.value < acc.modulus → acc.modulus ≤ t →
      acc.info_remaining t = some b →
      info.modulus = b → info.value < info.modulus →
      acc.value + acc.modulus * info.value = af.value →
      runQuestions next (getCallback view t player) fuel hi b acc =
        some (hf, af) →
      ∃ infoF,
        runQuestions next (updateCallback view.board) fuel hi b info =
          some (hf, infoF) ∧ infoF.value = 0 := by
  induction fuel with
  | zero =>
    intro hi b acc info hf af hv hcap hb him hiv hval h
    simp only [runQuestions] at h
    cases hnext : next hi b with
    | none =>
      rw [hnext] at h
      simp only [Option.some.injEq, Prod.mk.injEq] at h
      obtain ⟨rfl, rfl⟩ := h
      refine ⟨info, ?_, ?_⟩
      · simp only [runQuestions, hnext]
      · have h0 : acc.modulus * info.value = 0 := by omega
        rcases Nat.mul_eq_zero.mp h0 with h1 | h1
        · exfalso; omega
        · exact h1
    | some q =>
      rw [hnext] at h
      exact absurd h (by simp)
  | succ fuel ih =>
    intro hi b acc info hf af hv hcap hb him hiv hval h
    simp only [runQuestions] at h
    cases hnext : next hi b with
    | none =>
      rw [hnext] at h
      simp only [Option.some.injEq, Prod.mk.injEq] at h
      obtain ⟨rfl, rfl⟩ := h
      refine ⟨info, ?_, ?_⟩
      · simp only [runQuestions, hnext]
      · have h0 : acc.modulus * info.value = 0 := by omega
        rcases Nat.mul_eq_zero.mp h0 with h1 | h1
        · exfalso; omega
        · exact h1
    | some q =>
      obtain ⟨am, av⟩ := acc
      obtain ⟨im, iv⟩ := info
      have hv' : av < am := hv
      have hcap' : am ≤ t := hcap
      have him' : im = b := him
      have hiv' : iv < im := hiv
      have hval' : av + am * iv = af.value := hval
      rw [hnext] at h
      simp only [] at h
      cases hcb : getCallback view t player hi b q ⟨am, av⟩ with
      | none => rw [hcb] at h; exact absurd h (by simp)
      | some trip =>
        rw [hcb] at h
        obtain ⟨ha, acc2, b2, hcomb, hirem, rfl⟩ := getCallback_eq_some_iff.mp hcb
        simp only [] at h
        obtain ⟨ir, hir, hmle, hlt, rfl⟩ := combine_eq_some_iff.mp hcomb
        have hirb : ir = b := by
          rw [hb] at hir
          exact (Option.some.inj hir).symm
        obtain ⟨h1m, hvt, hbv⟩ := info_remaining_eq_some_iff.mp hb
        have h1m' : 1 ≤ am := h1m
        have hvt' : av < t := hvt
        have hbv' : b = (t - av - 1) / am + 1 := hbv
        have hm1 : 1 ≤ q.info_amount := by omega
        have hmle' : q.info_amount ≤ ir := hmle
        have hmb : q.info_amount ≤ b := by omega
        have ha_le_div : q.answer (view.hands player) view.board ≤
            (t - av - 1) / am := by omega
        have hdm1 : am * ((t - av - 1) / am) ≤ t - av - 1 := by
          rw [Nat.mul_comm]
          exact Nat.div_mul_le_self _ _
        have hPa : am * q.answer (view.hands player) view.board ≤
            am * ((t - av - 1) / am) := Nat.mul_le_mul_left am ha_le_div
        have hsplit : ModulusInformation.split ⟨im, iv⟩ q.info_amount =
            some (⟨q.info_amount, iv % q.info_amount⟩,
              ⟨(im - iv % q.info_amount - 1) / q.info_amount + 1,
                iv / q.info_amount⟩) := by
          apply split_eq_some_iff.mpr
          refine ⟨by show q.info_amount ≤ im; omega, ?_, rfl, rfl⟩
          exact Nat.mod_lt iv hm1
        have hnum : im - q.answer (view.hands player) view.board - 1 =
            (t - av - 1) / am - q.answer (view.hands player) view.board := by
          omega
        have hsub : ((t - av - 1) -
            am * q.answer (view.hands player) view.board) / am =
            (t - av - 1) / am - q.answer (view.hands player) view.board :=
          Nat.sub_mul_div _ _ _ (by omega)
        have hdd : ((t - av - 1) -
            am * q.answer (view.hands player) view.board) / am /
              q.info_amount =
            ((t - av - 1) - am * q.answer (view.hands player) view.board) /
              (am * q.info_amount) := Nat.div_div_eq_div_mul _ _ _
        have hnum2 : (t - av - 1) -
            am * q.answer (view.hands player) view.board =
            t - (av + am * q.answer (view.hands player) view.board) - 1 := by
          omega
        by_cases hcapm : am * q.info_amount ≤ t
        · -- the combined modulus is not capped by the ceiling
          have hmin : min t (am * q.info_amount) = am * q.info_amount :=
            min_eq_right hcapm
          rw [hmin] at h hlt hirem
          obtain ⟨h1m2, hvt2, hb2v⟩ := info_remaining_eq_some_iff.mp hirem
          have hb2v' : b2 = (t -
              (av + am * q.answer (view.hands player) view.board) - 1) /
              (am * q.info_amount) + 1 := hb2v
          obtain ⟨j, hj⟩ := runGet_multiple next view t player fuel
            _ _ _ _ _ hlt hcapm h
          have hj2 : af.value =
              (av + am * q.answer (view.hands player) view.board) +
                am * q.info_amount * j := hj
          have e1 : am * (q.answer (view.hands player) view.board +
              q.info_amount * j) =
              am * q.answer (view.hands player) view.board +
                am * (q.info_amount * j) := Nat.mul_add am _ _
          have e2 : am * q.info_amount * j = am * (q.info_amount * j) :=
            Nat.mul_assoc am _ _
          have hivEq : iv = q.answer (view.hands player) view.board +
              q.info_amount * j := by
            have hcc : am * iv = am * (q.answer (view.hands player) view.board +
                q.info_amount * j) := by omega
            exact Nat.eq_of_mul_eq_mul_left (by omega) hcc
          have hivmod : iv % q.info_amount =
              q.answer (view.hands player) view.board := by
            rw [hivEq, Nat.add_mul_mod_self_left, Nat.mod_eq_of_lt ha]
          have hivdiv : iv / q.info_amount = j := by
            rw [hivEq, Nat.add_mul_div_left _ _ (by omega),
              Nat.div_eq_of_lt ha]
            omega
          have hDb2 : (im - q.answer (view.hands player) view.board - 1) /
              q.info_amount + 1 = b2 := by
            rw [hnum, ← hsub, hdd, hnum2]
            exact hb2v'.symm
          have hj_le : j ≤ (im - q.answer (view.hands player) view.board - 1) /
              q.info_amount := by
            rw [Nat.le_div_iff_mul_le (by omega : 0 < q.info_amount)]
            have hcm : j * q.info_amount = q.info_amount * j :=
              Nat.mul_comm _ _
            omega
          have hjb2 : j < b2 := by omega
          obtain ⟨infoF, hrunU, hzF⟩ := ih
            (q.acknowledge_answer (q.answer (view.hands player) view.board)
              hi view.board) b2
            ⟨am * q.info_amount,
              av + am * q.answer (view.hands player) view.board⟩
            ⟨b2, j⟩ hf af hlt hcapm hirem rfl hjb2
            (show (av + am * q.answer (view.hands player) view.board) +
              am * q.info_amount * j = af.value by omega) h
          refine ⟨infoF, ?_, hzF⟩
          simp only [runQuestions, hnext]
          rw [updateCallback_eq_some_iff.mpr
            ⟨⟨q.info_amount, iv % q.info_amount⟩,
              ⟨(im - iv % q.info_amount - 1) / q.info_amount + 1,
                iv / q.info_amount⟩, hsplit, rfl⟩]
          simp only []
          rw [hivmod, hivdiv, hDb2]
          exact hrunU
        · -- the combined modulus is capped at the ceiling
          push_neg at hcapm
          have hmin : min t (am * q.info_amount) = t :=
            min_eq_left (Nat.le_of_lt hcapm)
          rw [hmin] at h hlt hirem
          obtain ⟨h1m2, hvt2, hb2v⟩ := info_remaining_eq_some_iff.mp hirem
          have hb2v' : b2 = (t -
              (av + am * q.answer (view.hands player) view.board) - 1) /
              t + 1 := hb2v
          have ht1 : 1 ≤ t := by omega
          have hb21 : b2 = 1 := by
            rw [hb2v', Nat.div_eq_of_lt (by omega)]
          have haf := runGet_capped next view t player fuel _ _ _ _ _ rfl hlt h
          have hafv : af.value =
              av + am * q.answer (view.hands player) view.board := by
            rw [haf]
          have hivEq : iv = q.answer (view.hands player) view.board := by
            have hcc : am * iv =
                am * q.answer (view.hands player) view.board := by omega
            exact Nat.eq_of_mul_eq_mul_left (by omega) hcc
          have hivmod : iv % q.info_amount =
              q.answer (view.hands player) view.board := by
            rw [hivEq, Nat.mod_eq_of_lt ha]
          have hivdiv : iv / q.info_amount = 0 := by
            rw [hivEq]
            exact Nat.div_eq_of_lt ha
          have hDb2 : (im - q.answer (view.hands player) view.board - 1) /
              q.info_amount + 1 = b2 := by
            have h9 : (t - av - 1) -
                am * q.answer (view.hands player) view.board < t := by omega
            have hlt3 : (t - av - 1) -
                am * q.answer (view.hands player) view.board <
                am * q.info_amount := Nat.lt_trans h9 hcapm
            rw [hnum, ← hsub, hdd, Nat.div_eq_of_lt hlt3]
            omega
          obtain ⟨infoF, hrunU, hzF⟩ := ih
            (q.acknowledge_answer (q.answer (view.hands player) view.board)
              hi view.board) b2
            ⟨t, av + am * q.answer (view.hands player) view.board⟩
            ⟨b2, 0⟩ hf af hlt (Nat.le_refl t) hirem rfl
            (show (0 : Nat) < b2 by omega)
            (show (av + am * q.answer (view.hands player) view.board) +
              t * 0 = af.value by omega) h
          refine ⟨infoF, ?_, hzF⟩
          simp only [runQuestions, hnext]
          rw [updateCallback_eq_some_iff.mpr
            ⟨⟨q.info_amount, iv % q.info_amount⟩,
              ⟨(im - iv % q.info_amount - 1) / q.info_amount + 1,
                iv / q.info_amount⟩, hsplit, rfl⟩]
          simp only []
          rw [hivmod, hivdiv, hDb2]
          exact hrunU

/-- Claim C5: `update_from_hat_info_for_player` fully consumes the residue
produced by `get_hat_info_for_player`.  When the supplied residue is the one
`get_hat_info_for_player` produced for the same strategy, state, player,
initial hand info and modulus, the update re-runs the same question sequence,
the final residue value is zero (so the trailing assertion holds), and the
resulting hand info is the same one the get run produced. -/
theorem C5_update_from_hat_info_consumes {S Player Hand Board HandInfo : Type}
    [DecidableEq Player] (pi : PublicInformation S Player Hand Board HandInfo)
    (s : S) (player : Player) (hand_info : HandInfo) (total_info : Nat)
    (view : OwnedGameView Player Hand Board) (fuel : Nat)
    (info : ModulusInformation) (hf : HandInfo)
    (h : pi.get_hat_info_for_player s player hand_info total_info view fuel =
      some (info, hf)) :
    pi.update_from_hat_info_for_player s player hand_info view.board info
      fuel = some hf := by
  unfold PublicInformation.get_hat_info_for_player at h
  split_ifs at h with hpv
  cases hrun : runQuestions (pi.ask_questions_next s player)
      (getCallback view total_info player) fuel hand_info total_info
      ModulusInformation.none with
  | none => rw [hrun] at h; exact absurd h (by simp)
  | some pr =>
    obtain ⟨hf2, af⟩ := pr
    rw [hrun] at h
    simp only [] at h
    cases hcast : af.cast_up total_info with
    | none => rw [hcast] at h; exact absurd h (by simp)
    | some final =>
      rw [hcast] at h
      simp only [Option.some.injEq, Prod.mk.injEq] at h
      obtain ⟨rfl, rfl⟩ := h
      obtain ⟨hcle, rfl⟩ := cast_up_eq_some_iff.mp hcast
      have hafv : af.value < af.modulus :=
        runGet_valid (pi.ask_questions_next s player) view total_info player
          fuel hand_info total_info ModulusInformation.none hf2 af
          (by decide) hrun
      have ht1 : 1 ≤ total_info := by omega
      have hb0 : ModulusInformation.none.info_remaining total_info =
          some total_info := by
        apply info_remaining_eq_some_iff.mpr
        refine ⟨?_, ?_, ?_⟩
        · show 1 ≤ 1
          omega
        · show 0 < total_info
          omega
        · show total_info = (total_info - 0 - 1) / 1 + 1
          omega
      obtain ⟨infoF, hrunU, hzF⟩ := runUpdate_simulates
        (pi.ask_questions_next s player) view total_info player fuel
        hand_info total_info ModulusInformation.none
        ⟨total_info, af.value⟩ hf2 af (by decide) ht1 hb0 rfl
        (show af.value < total_info by omega)
        (show 0 + 1 * af.value = af.value by omega) hrun
      have hrunU2 : runQuestions (pi.ask_questions_next s player)
          (updateCallback view.board) fuel hand_info
          ((⟨total_info, af.value⟩ : ModulusInformation)).modulus
          ⟨total_info, af.value⟩ = some (hf2, infoF) := hrunU
      unfold PublicInformation.update_from_hat_info_for_player
      rw [hrunU2]
      simp [hzF]

/-- Witness for Claim C5: in the concrete strategy instance, the residue
`(2, 0)` produced by `get_hat_info_for_player` is fully consumed by
`update_from_hat_info_for_player`, reproducing the same hand info. -/
theorem C5_update_from_hat_info_consumes_witness :
    examplePublicInformation.get_hat_info_for_player 0 1 0 2 exampleView 2 =
      some (⟨2, 0⟩, 1) ∧
    examplePublicInformation.update_from_hat_info_for_player 0 1 0
      exampleView.board ⟨2, 0⟩ 2 = some 1 :=
  ⟨by decide, C5_update_from_hat_info_consumes examplePublicInformation 0 1 0 2
    exampleView 2 ⟨2, 0⟩ 1 (by decide)⟩
